import Mathlib

/-!
Verification of the SQLite-backed local status cache
(`offlineimap/folder/LocalStatusSQLite.py`).

The development is a shallow embedding: the persisted `status` table is a
list of rows, the in-memory message list (the "mirror") is an association
list keyed by UID, and every mutating SQL statement issued through
`__sql_write` is both applied to the modelled store and appended to a write
log (one log entry per `__sql_write` call; a batched `executemany` call is
one entry holding one statement instance per parameter row).

Python-level behaviours are modelled explicitly:
 * `str.split(',')`, `str.strip()` and `', '.join(...)` are re-implemented
   over `List Char`;
 * Python `set`s of flags/labels are `Finset`s, and `sorted(...)` is an
   insertion sort lifted to the underlying multiset (both this model's
   orders and Python's are lexicographic by code point);
 * operations that raise (`KeyError` from `del d[k]` / `d[k]` on a missing
   key, failing `assert` statements) return `none`;
 * the truthiness test `if mtime:` is `pyTruthy` (false on `None` and `0`).
-/

/-! ## Python string primitives -/

/-- Python `str.split(',')` on the character list: split at every comma,
keeping empty chunks (so the result always has one more chunk than there
are commas). -/
def splitCommaL : List Char → List (List Char)
  | [] => [[]]
  | c :: cs =>
      if c = ',' then [] :: splitCommaL cs
      else
        match splitCommaL cs with
        | [] => [[c]]
        | p :: ps => (c :: p) :: ps

/-- Python `str.isspace()` for a single character: CPython's whitespace
set — `\t\n\x0b\x0c\r` (0x09–0x0d), 0x1c–0x1f, space, 0x85, 0xa0,
0x1680, 0x2000–0x200a, 0x2028, 0x2029, 0x202f, 0x205f and 0x3000.  (This
is deliberately not Lean's `Char.isWhitespace`, which covers only
space/tab/CR/LF and would make `strip()` weaker than Python's.) -/
def pyIsSpace (c : Char) : Bool :=
  (9 ≤ c.toNat && c.toNat ≤ 13) || (28 ≤ c.toNat && c.toNat ≤ 31) ||
    c.toNat = 32 || c.toNat = 0x85 || c.toNat = 0xa0 || c.toNat = 0x1680 ||
    (0x2000 ≤ c.toNat && c.toNat ≤ 0x200a) || c.toNat = 0x2028 ||
    c.toNat = 0x2029 || c.toNat = 0x202f || c.toNat = 0x205f || c.toNat = 0x3000

/-- Python `str.strip()` on the character list: drop leading and trailing
Python whitespace. -/
def stripL (l : List Char) : List Char :=
  ((l.dropWhile pyIsSpace).reverse.dropWhile pyIsSpace).reverse

/-- Python `', '.join(...)` on character lists. -/
def joinCS : List (List Char) → List Char
  | [] => []
  | [x] => x
  | x :: y :: t => x ++ ',' :: ' ' :: joinCS (y :: t)

/-- Python `s.split(',')` for `String`. -/
def pySplitComma (s : String) : List String :=
  (splitCommaL s.data).map String.mk

/-- Python `s.strip()` for `String`. -/
def pyStrip (s : String) : String :=
  ⟨stripL s.data⟩

/-- Python `', '.join(l)` for `String`. -/
def pyJoinCS (l : List String) : String :=
  ⟨joinCS (l.map String.data)⟩

/-- Python truthiness of an optional integer (`None` and `0` are falsy). -/
def pyTruthy : Option Int → Bool
  | none => false
  | some t => t != 0

/-! ## Python `sorted` on a set

`Finset.sort` is based on `mergeSort`, which the kernel does not unfold, so
we model Python's `sorted(...)` by lifting insertion sort to the underlying
multiset; the result is provably equal to `Finset.sort (· ≤ ·)`. -/

/-- Insertion sort lifted to multisets (well defined since sorting is
invariant under permutation of the input). -/
def msortLE {α : Type} [LinearOrder α] (s : Multiset α) : List α :=
  Quot.liftOn s (List.insertionSort (· ≤ ·)) (fun l₁ l₂ h =>
    List.eq_of_perm_of_sorted
      ((List.perm_insertionSort _ l₁).trans (h.trans (List.perm_insertionSort _ l₂).symm))
      (List.sorted_insertionSort _ l₁) (List.sorted_insertionSort _ l₂))

/-- Python `sorted(s)` for a set `s` of characters. -/
def pySorted {α : Type} [LinearOrder α] (s : Finset α) : List α :=
  msortLE s.val

theorem msortLE_coe {α : Type} [LinearOrder α] (m : Multiset α) :
    (↑(msortLE m) : Multiset α) = m :=
  Quot.inductionOn m (fun l => Quot.sound (List.perm_insertionSort _ l))

theorem msortLE_sorted {α : Type} [LinearOrder α] (m : Multiset α) :
    List.Sorted (· ≤ ·) (msortLE m) :=
  Quot.inductionOn m (fun l => List.sorted_insertionSort _ l)

theorem pySorted_eq_sort {α : Type} [LinearOrder α] (s : Finset α) :
    pySorted s = s.sort (· ≤ ·) :=
  List.eq_of_perm_of_sorted
    (Multiset.coe_eq_coe.mp ((msortLE_coe s.val).trans (Finset.sort_eq _ s).symm))
    (msortLE_sorted s.val) (Finset.sort_sorted _ s)

theorem pySorted_toFinset {α : Type} [DecidableEq α] [LinearOrder α] (s : Finset α) :
    (pySorted s).toFinset = s := by
  rw [pySorted_eq_sort]; exact Finset.sort_toFinset _ s

theorem mem_pySorted {α : Type} [LinearOrder α] {s : Finset α} {a : α} :
    a ∈ pySorted s ↔ a ∈ s := by
  rw [pySorted_eq_sort]; exact Finset.mem_sort _

/-! The linear order on `String` that Mathlib provides has a decidability
instance that the kernel cannot evaluate, so label sorting is modelled with
an explicit boolean lexicographic comparison on the character lists (this
is exactly Python's `<=` on `str`: code-point lexicographic). -/

/-- Boolean lexicographic less-or-equal on character lists. -/
def lexLEb : List Char → List Char → Bool
  | [], _ => true
  | _ :: _, [] => false
  | a :: as, b :: bs => if a < b then true else if a = b then lexLEb as bs else false

theorem lexLEb_total : ∀ a b : List Char, lexLEb a b = true ∨ lexLEb b a = true
  | [], _ => Or.inl rfl
  | _ :: _, [] => Or.inr rfl
  | a :: as, b :: bs => by
      rcases lt_trichotomy a b with h | h | h
      · left; simp [lexLEb, h]
      · subst h
        rcases lexLEb_total as bs with ih | ih
        · left; simp [lexLEb, ih]
        · right; simp [lexLEb, ih]
      · right; simp [lexLEb, h]

theorem lexLEb_antisymm : ∀ a b : List Char,
    lexLEb a b = true → lexLEb b a = true → a = b
  | [], [], _, _ => rfl
  | [], _ :: _, _, h₂ => by simp [lexLEb] at h₂
  | _ :: _, [], h₁, _ => by simp [lexLEb] at h₁
  | a :: as, b :: bs, h₁, h₂ => by
      simp only [lexLEb] at h₁ h₂
      rcases lt_trichotomy a b with h | h | h
      · rw [if_neg (lt_asymm h), if_neg (ne_of_gt h)] at h₂
        exact absurd h₂ (by simp)
      · subst h
        rw [if_neg (lt_irrefl a), if_pos rfl] at h₁ h₂
        rw [lexLEb_antisymm as bs h₁ h₂]
      · rw [if_neg (lt_asymm h), if_neg (ne_of_gt h)] at h₁
        exact absurd h₁ (by simp)

theorem lexLEb_trans : ∀ a b c : List Char,
    lexLEb a b = true → lexLEb b c = true → lexLEb a c = true
  | [], _, _, _, _ => rfl
  | _ :: _, [], _, h₁, _ => by simp [lexLEb] at h₁
  | _ :: _, _ :: _, [], _, h₂ => by simp [lexLEb] at h₂
  | a :: as, b :: bs, c :: cs, h₁, h₂ => by
      simp only [lexLEb] at h₁ h₂ ⊢
      rcases lt_trichotomy a b with hab | hab | hab
      · rcases lt_trichotomy b c with hbc | hbc | hbc
        · rw [if_pos (lt_trans hab hbc)]
        · subst hbc; rw [if_pos hab]
        · rw [if_neg (lt_asymm hbc), if_neg (ne_of_gt hbc)] at h₂
          exact absurd h₂ (by simp)
      · subst hab
        rcases lt_trichotomy a c with hac | hac | hac
        · rw [if_pos hac]
        · subst hac
          rw [if_neg (lt_irrefl a), if_pos rfl] at h₁ h₂ ⊢
          exact lexLEb_trans as bs cs h₁ h₂
        · rw [if_neg (lt_asymm hac), if_neg (ne_of_gt hac)] at h₂
          exact absurd h₂ (by simp)
      · rw [if_neg (lt_asymm hab), if_neg (ne_of_gt hab)] at h₁
        exact absurd h₁ (by simp)

/-- Python `<=` on strings: lexicographic by code point. -/
def strLE (s t : String) : Prop :=
  lexLEb s.data t.data = true

instance : DecidableRel strLE :=
  fun s t => inferInstanceAs (Decidable (lexLEb s.data t.data = true))

instance : IsTotal String strLE :=
  ⟨fun a b => lexLEb_total a.data b.data⟩

instance : IsTrans String strLE :=
  ⟨fun a b c => lexLEb_trans a.data b.data c.data⟩

instance : IsAntisymm String strLE :=
  ⟨fun a b h₁ h₂ => congrArg String.mk (lexLEb_antisymm a.data b.data h₁ h₂)⟩

/-- Insertion sort by `strLE` lifted to multisets of strings. -/
def msortStr (m : Multiset String) : List String :=
  Quot.liftOn m (List.insertionSort strLE) (fun l₁ l₂ h =>
    List.eq_of_perm_of_sorted
      ((List.perm_insertionSort _ l₁).trans (h.trans (List.perm_insertionSort _ l₂).symm))
      (List.sorted_insertionSort _ l₁) (List.sorted_insertionSort _ l₂))

/-- Python `sorted(labels)` for a set of label strings. -/
def pySortedStr (s : Finset String) : List String :=
  msortStr s.val

theorem msortStr_coe (m : Multiset String) :
    (↑(msortStr m) : Multiset String) = m :=
  Quot.inductionOn m (fun l => Quot.sound (List.perm_insertionSort _ l))

theorem pySortedStr_toFinset (s : Finset String) :
    (pySortedStr s).toFinset = s := by
  have h : (↑(pySortedStr s) : Multiset String) = s.val := msortStr_coe s.val
  calc (pySortedStr s).toFinset
      = (↑(pySortedStr s) : Multiset String).toFinset := rfl
    _ = s.val.toFinset := by rw [h]
    _ = s := Finset.val_toFinset s

theorem mem_pySortedStr {s : Finset String} {a : String} :
    a ∈ pySortedStr s ↔ a ∈ s := by
  have h : (↑(pySortedStr s) : Multiset String) = s.val := msortStr_coe s.val
  constructor
  · intro ha
    have : a ∈ (↑(pySortedStr s) : Multiset String) := Multiset.mem_coe.mpr ha
    rw [h] at this; exact this
  · intro ha
    have : a ∈ (↑(pySortedStr s) : Multiset String) := by
      rw [h]; exact ha
    exact Multiset.mem_coe.mp this

/-! ## Serialization of flag and label sets (source: `saveall`,
`savemessage`, `savemessageflags`, `savemessagelabels`) -/

/-- `''.join(sorted(flags))`: flags are persisted as the sorted
concatenation of their single characters. -/
def serializeFlags (f : Finset Char) : String :=
  ⟨pySorted f⟩

/-- `', '.join(sorted(labels))`: labels are persisted sorted and
comma-space separated. -/
def serializeLabels (l : Finset String) : String :=
  pyJoinCS (pySortedStr l)

/-- `set(row[1])` in `cachemessagelist`: the flags column is read back as
the set of its characters. -/
def parseFlags (s : String) : Finset Char :=
  s.data.toFinset

/-- `set([lb.strip() for lb in row[3].split(',') if len(lb.strip()) > 0])`
in `cachemessagelist`. -/
def parseLabels (s : String) : Finset String :=
  (((pySplitComma s).map pyStrip).filter (fun t => t ≠ "")).toFinset

example : parseFlags (serializeFlags {'b', 'a'}) = {'a', 'b'} := by decide
example : serializeLabels {"b", "a"} = "a, b" := by decide
example : parseLabels "a, b" = {"a", "b"} := by decide
example : parseLabels (serializeLabels {"a,b"}) = {"a", "b"} := by decide
example : parseLabels "" = ∅ := by decide

/-! ## Data model

`MsgRecord` is one entry of the in-memory message list
(`msglist_item_initializer`); `DbRow` is one row of the persisted `status`
table (`id INTEGER PRIMARY KEY, flags, mtime, labels`; the labels column is
`Option`al because the database may hold `NULL`, see the `AttributeError`
handler in `cachemessagelist`). -/

/-- One in-memory record: `{'uid':…, 'flags':…, 'labels':…, 'time':…, 'mtime':…}`. -/
structure MsgRecord where
  uid : Int
  flags : Finset Char
  labels : Finset String
  time : Int
  mtime : Int
deriving DecidableEq

/-- One persisted `status` row. -/
structure DbRow where
  id : Int
  flags : String
  mtime : Int
  labels : Option String
deriving DecidableEq

/-- One parameter-row instance of a mutating SQL statement issued by the
folder (the statement template together with its bound parameters). -/
inductive SqlStmt where
  | insertStatus (uid : Int) (flags : String) (mtime : Int) (labels : String)
  | insertOrReplace (uid : Int) (flags : String) (mtime : Int) (labels : String)
  | updateFlags (flags : String) (uid : Int)
  | updateLabels (labels : String) (uid : Int)
  | updateLabelsMtime (labels : String) (mtime : Int) (uid : Int)
  | updateMtime (mtime : Int) (uid : Int)
  | deleteUid (uid : Int)
deriving DecidableEq

/-- The persisted `status` table, in row order. -/
abbrev Store := List DbRow

/-- The in-memory message list: an insertion-ordered association list, the
model of the Python dict `self.messagelist`. -/
abbrev Mirror := List (Int × MsgRecord)

/-- The observable state of one `LocalStatusSQLiteFolder`: the in-memory
mirror, the persisted table, and the log of `__sql_write` calls (one entry
per call; an `executemany` call contributes a single entry listing one
statement instance per parameter row). -/
structure FolderState where
  mirror : Mirror
  store : Store
  log : List (List SqlStmt)
deriving DecidableEq

/-! ### Python dict operations on the mirror -/

/-- In-place update of the entry with key `u` (dict assignment to a field
of an existing record keeps the dict order). -/
def mupd (u : Int) (f : MsgRecord → MsgRecord) (m : Mirror) : Mirror :=
  m.map (fun p => if p.1 = u then (p.1, f p.2) else p)

/-- `uid in self.messagelist`. -/
def hasKey (m : Mirror) (u : Int) : Bool :=
  m.any (fun p => p.1 = u)

/-- `self.messagelist[uid]` as a lookup (first matching key). -/
def mlookup (m : Mirror) (u : Int) : Option MsgRecord :=
  (m.find? (fun p => p.1 = u)).map (fun p => p.2)

/-- `self.messagelist[uid] = rec`: replace in place if the key exists,
otherwise append (Python dicts are insertion ordered). -/
def msetKey (m : Mirror) (u : Int) (r : MsgRecord) : Mirror :=
  if hasKey m u then m.map (fun p => if p.1 = u then (u, r) else p)
  else m ++ [(u, r)]

/-- `self.messagelist[uid]['flags'] = flags`; `none` models the `KeyError`
raised when the UID is absent. -/
def msetFlags (m : Mirror) (u : Int) (f : Finset Char) : Option Mirror :=
  if hasKey m u then some (mupd u (fun r => { r with flags := f }) m) else none

/-- `self.messagelist[uid]['labels'] = labels`; `none` models `KeyError`. -/
def msetLabels (m : Mirror) (u : Int) (l : Finset String) : Option Mirror :=
  if hasKey m u then some (mupd u (fun r => { r with labels := l }) m) else none

/-- `self.messagelist[uid]['mtime'] = mtime`; `none` models `KeyError`. -/
def msetMtime (m : Mirror) (u : Int) (t : Int) : Option Mirror :=
  if hasKey m u then some (mupd u (fun r => { r with mtime := t }) m) else none

/-- `del self.messagelist[uid]`; `none` models `KeyError`. -/
def mdelKey (m : Mirror) (u : Int) : Option Mirror :=
  if hasKey m u then some (m.filter (fun p => p.1 ≠ u)) else none

/-! ### SQL statement semantics on the store -/

/-- `UPDATE … WHERE id=u` / `INSERT OR REPLACE` hitting an existing row:
rewrite the row whose primary key is `u` in place. -/
def rupd (u : Int) (f : DbRow → DbRow) (s : Store) : Store :=
  s.map (fun r => if r.id = u then f r else r)

/-- Effect of one statement instance on the `status` table (the success
path; `__sql_write`'s error handling is modelled separately). -/
def applyStmt (s : Store) : SqlStmt → Store
  | .insertStatus u f t l => s ++ [⟨u, f, t, some l⟩]
  | .insertOrReplace u f t l =>
      if s.any (fun r => r.id = u) then rupd u (fun _ => ⟨u, f, t, some l⟩) s
      else s ++ [⟨u, f, t, some l⟩]
  | .updateFlags f u => rupd u (fun r => { r with flags := f }) s
  | .updateLabels l u => rupd u (fun r => { r with labels := some l }) s
  | .updateLabelsMtime l t u => rupd u (fun r => { r with labels := some l, mtime := t }) s
  | .updateMtime t u => rupd u (fun r => { r with mtime := t }) s
  | .deleteUid u => s.filter (fun r => r.id ≠ u)

/-- `self.__sql_write(sql, args, executemany)`: execute the batch against
the store and record one log entry for the call. -/
def sqlWrite (st : FolderState) (batch : List SqlStmt) : FolderState :=
  { st with store := batch.foldl applyStmt st.store, log := st.log ++ [batch] }

/-! ### Folder operations (source: `LocalStatusSQLiteFolder`) -/

/-- `msglist_item_initializer`. -/
def msglist_item_initializer (uid : Int) : MsgRecord :=
  ⟨uid, ∅, ∅, 0, 0⟩

/-- `savemessageflags(uid, flags)`: the leading `assert self.uidexists(uid)`
is modelled by returning `none` when the UID is absent. -/
def savemessageflags (st : FolderState) (uid : Int) (flags : Finset Char) :
    Option FolderState :=
  (msetFlags st.mirror uid flags).map (fun m =>
    sqlWrite { st with mirror := m } [.updateFlags (serializeFlags flags) uid])

/-- `savemessage(uid, content, flags, rtime, mtime=0, labels=set())`.
The `content` argument is accepted and ignored, exactly as in the source
(this backend stores no message bodies).  When the UID already exists the
call degrades to `savemessageflags`, whose assertion is then known to
succeed, so the `getD` default is never taken on that path. -/
def savemessage (st : FolderState) (uid : Int) (content : String)
    (flags : Finset Char) (rtime : Int) (mtime : Int) (labels : Finset String) :
    Int × FolderState :=
  if uid < 0 then (uid, st)
  else if hasKey st.mirror uid then
    (uid, (savemessageflags st uid flags).getD st)
  else
    let m1 := msetKey st.mirror uid (msglist_item_initializer uid)
    let m2 := msetKey m1 uid ⟨uid, flags, labels, rtime, mtime⟩
    (uid, sqlWrite { st with mirror := m2 }
      [.insertStatus uid (serializeFlags flags) mtime (serializeLabels labels)])

/-- `savemessagelabels(uid, labels, mtime=None)`.  Both `if mtime:` tests
are Python truthiness (`pyTruthy`), so `mtime=0` behaves like `None`. -/
def savemessagelabels (st : FolderState) (uid : Int) (labels : Finset String)
    (mtime : Option Int) : Option FolderState :=
  (msetLabels st.mirror uid labels).bind (fun m1 =>
    if pyTruthy mtime then
      (msetMtime m1 uid (mtime.getD 0)).map (fun m2 =>
        sqlWrite { st with mirror := m2 }
          [.updateLabelsMtime (serializeLabels labels) (mtime.getD 0) uid])
    else
      some (sqlWrite { st with mirror := m1 }
        [.updateLabels (serializeLabels labels) uid]))

/-- `savemessageslabelsbulk(labels)`: one batched store write, then the
mirror updates (a `KeyError` in the mirror loop yields `none`). -/
def savemessageslabelsbulk (st : FolderState) (pairs : List (Int × Finset String)) :
    Option FolderState :=
  let data := pairs.map (fun p => SqlStmt.updateLabels (serializeLabels p.2) p.1)
  let st1 := sqlWrite st data
  (pairs.foldlM (fun m p => msetLabels m p.1 p.2) st1.mirror).map
    (fun m => { st1 with mirror := m })

/-- `savemessagesmtimebulk(mtimes)`. -/
def savemessagesmtimebulk (st : FolderState) (pairs : List (Int × Int)) :
    Option FolderState :=
  let data := pairs.map (fun p => SqlStmt.updateMtime p.2 p.1)
  let st1 := sqlWrite st data
  (pairs.foldlM (fun m p => msetMtime m p.1 p.2) st1.mirror).map
    (fun m => { st1 with mirror := m })

/-- `deletemessage(uid)`: absent UIDs return without any change. -/
def deletemessage (st : FolderState) (uid : Int) : FolderState :=
  if hasKey st.mirror uid then
    let st1 := sqlWrite st [.deleteUid uid]
    { st1 with mirror := (mdelKey st1.mirror uid).getD st1.mirror }
  else st

/-- `deletemessages(uidlist)`: weed out UIDs not in the mirror, then one
batched delete; the trailing `del` loop can raise `KeyError` when the
filtered list repeats a UID, modelled by `none`. -/
def deletemessages (st : FolderState) (uidlist : List Int) : Option FolderState :=
  let flt := uidlist.filter (fun u => hasKey st.mirror u)
  if flt.isEmpty then some st
  else
    let st1 := sqlWrite st (flt.map SqlStmt.deleteUid)
    (flt.foldlM mdelKey st1.mirror).map (fun m => { st1 with mirror := m })

/-- `saveall()`: flush the whole mirror with one batched
`INSERT OR REPLACE`. -/
def saveall (st : FolderState) : FolderState :=
  let data := st.mirror.map (fun p =>
    SqlStmt.insertOrReplace p.1 (serializeFlags p.2.flags) p.2.mtime
      (serializeLabels p.2.labels))
  sqlWrite st data

/-- Modelled from the spec: `dropmessagelistcache` (defined in the absent
`folder/Base.py`) clears the in-memory mirror before a reload. -/
def dropmessagelistcache (st : FolderState) : FolderState :=
  { st with mirror := [] }

/-- Value stored in the mirror for one row read back by
`cachemessagelist`: initializer, then the `flags`/`labels`/`mtime` field
assignments; a `NULL` labels column degrades to the empty set. -/
def rowToRecord (row : DbRow) : MsgRecord :=
  { msglist_item_initializer row.id with
      flags := parseFlags row.flags
      labels := match row.labels with
        | none => ∅
        | some s => parseLabels s
      mtime := row.mtime }

/-- `cachemessagelist()`: drop the cache and re-read every `status` row. -/
def cachemessagelist (st : FolderState) : FolderState :=
  let st0 := dropmessagelistcache st
  { st0 with mirror := st.store.foldl (fun m row => msetKey m row.id (rowToRecord row)) [] }

/-! ## Basic lemmas about the mirror and store operations -/

theorem hasKey_nil (u : Int) : hasKey [] u = false := rfl

theorem hasKey_cons (p : Int × MsgRecord) (t : Mirror) (u : Int) :
    hasKey (p :: t) u = (decide (p.1 = u) || hasKey t u) := by
  simp [hasKey, List.any_cons]

theorem hasKey_mupd (u v : Int) (f : MsgRecord → MsgRecord) (m : Mirror) :
    hasKey (mupd u f m) v = hasKey m v := by
  simp only [hasKey, mupd, List.any_map]
  refine congrArg (List.any m) (funext fun p => ?_)
  by_cases hu : p.1 = u <;> simp [Function.comp, hu]

theorem mlookup_cons (p : Int × MsgRecord) (t : Mirror) (u : Int) :
    mlookup (p :: t) u = if p.1 = u then some p.2 else mlookup t u := by
  by_cases h : p.1 = u <;> simp [mlookup, List.find?_cons, h]

theorem hasKey_iff_mlookup (m : Mirror) (u : Int) :
    hasKey m u = true ↔ (mlookup m u).isSome = true := by
  induction m with
  | nil => simp [hasKey, mlookup]
  | cons p t ih =>
      by_cases h : p.1 = u <;> simp [hasKey_cons, mlookup_cons, h, ih]

theorem mlookup_mupd_self {m : Mirror} {u : Int} {r : MsgRecord}
    (f : MsgRecord → MsgRecord) (h : mlookup m u = some r) :
    mlookup (mupd u f m) u = some (f r) := by
  induction m with
  | nil => simp [mlookup] at h
  | cons p t ih =>
      by_cases hp : p.1 = u
      · rw [mlookup_cons, if_pos hp] at h
        simp only [mupd, List.map_cons, if_pos hp]
        rw [mlookup_cons]
        simp only [if_pos hp]
        injection h with h
        rw [h]
      · rw [mlookup_cons, if_neg hp] at h
        simp only [mupd, List.map_cons, if_neg hp] at ih ⊢
        rw [mlookup_cons, if_neg hp]
        exact ih h

theorem mlookup_mupd_ne {u v : Int} (f : MsgRecord → MsgRecord) (m : Mirror)
    (h : v ≠ u) : mlookup (mupd u f m) v = mlookup m v := by
  induction m with
  | nil => rfl
  | cons p t ih =>
      simp only [mupd, List.map_cons] at ih ⊢
      by_cases hu : p.1 = u
      · rw [if_pos hu, mlookup_cons, mlookup_cons,
          if_neg (show ¬((p.1, f p.2).1 = v) from fun e => h (e.symm.trans hu)),
          if_neg (show ¬(p.1 = v) from fun e => h (e.symm.trans hu))]
        exact ih
      · rw [if_neg hu, mlookup_cons, mlookup_cons]
        by_cases hv : p.1 = v
        · rw [if_pos hv, if_pos hv]
        · rw [if_neg hv, if_neg hv]; exact ih

theorem mupd_comm {u v : Int} (f g : MsgRecord → MsgRecord) (m : Mirror)
    (h : u ≠ v) : mupd u f (mupd v g m) = mupd v g (mupd u f m) := by
  simp only [mupd, List.map_map]
  refine congrArg (fun fn => List.map fn m) (funext fun p => ?_)
  by_cases hu : p.1 = u <;> by_cases hv : p.1 = v
  · exact absurd (hu.symm.trans hv) h
  · simp [Function.comp, hu, hv, h, h.symm]
  · simp [Function.comp, hu, hv, h, h.symm]
  · simp [Function.comp, hu, hv]

theorem rupd_id_of_keyFixed {u : Int} (f : DbRow → DbRow)
    (hf : ∀ r, (f r).id = r.id) (r : DbRow) :
    (rupd u f [r]).map DbRow.id = [r.id] := by
  simp only [rupd, List.map_map, List.map_cons, List.map_nil, Function.comp]
  by_cases hu : r.id = u <;> simp [hu, hf]

theorem rupd_comm {u v : Int} (f g : DbRow → DbRow) (s : Store)
    (h : u ≠ v) (hf : ∀ r, (f r).id = r.id) (hg : ∀ r, (g r).id = r.id) :
    rupd u f (rupd v g s) = rupd v g (rupd u f s) := by
  simp only [rupd, List.map_map]
  refine congrArg (fun fn => List.map fn s) (funext fun r => ?_)
  by_cases hu : r.id = u <;> by_cases hv : r.id = v
  · exact absurd (hu.symm.trans hv) h
  · simp [Function.comp, hu, hv, h, h.symm, hf, hg]
  · simp [Function.comp, hu, hv, h, h.symm, hf, hg]
  · simp [Function.comp, hu, hv]

/-- Folding keyed operations over a list is invariant under permutation as
soon as the keys are distinct and operations with distinct keys commute. -/
theorem foldl_perm_keyed {γ α : Type} (g : γ → α → α) (key : γ → Int)
    (hc : ∀ p q, key p ≠ key q → ∀ a, g p (g q a) = g q (g p a)) :
    ∀ {l₁ l₂ : List γ}, l₁.Perm l₂ → (l₁.map key).Nodup →
      ∀ a, l₁.foldl (fun x c => g c x) a = l₂.foldl (fun x c => g c x) a := by
  intro l₁ l₂ hperm
  induction hperm with
  | nil => intro _ _; rfl
  | cons x h ih =>
      intro hnd a
      simp only [List.map_cons, List.nodup_cons] at hnd
      simp only [List.foldl_cons]
      exact ih hnd.2 (g x a)
  | swap x y t =>
      intro hnd a
      simp only [List.map_cons, List.nodup_cons] at hnd
      simp only [List.foldl_cons]
      have hyx : key y ≠ key x := fun e => hnd.1 (List.mem_cons.mpr (Or.inl e))
      rw [hc x y (fun e => hyx e.symm) a]
  | trans h₁ h₂ ih₁ ih₂ =>
      intro hnd a
      rw [ih₁ hnd a, ih₂ (((h₁.map key).nodup_iff).mp hnd) a]

/-! ## Claims -/

/-- C1 (amended): for every strictly negative uid, `savemessage` returns
the uid unchanged and leaves the whole folder state — mirror, store and
write log — untouched.  (The source guard is `if uid < 0`, so uid `0` is
not covered; see the counterexample.) -/
theorem savemessage_neg_uid_noop (st : FolderState) (uid : Int) (content : String)
    (flags : Finset Char) (rtime mtime : Int) (labels : Finset String)
    (h : uid < 0) :
    savemessage st uid content flags rtime mtime labels = (uid, st) := by
  simp only [savemessage, if_pos h]

theorem savemessage_neg_uid_noop_witness :
    (-1 : Int) < 0 ∧
      savemessage ⟨[], [], []⟩ (-1) "" ∅ 0 0 ∅ = (-1, ⟨[], [], []⟩) :=
  ⟨by decide, savemessage_neg_uid_noop ⟨[], [], []⟩ (-1) "" ∅ 0 0 ∅ (by decide)⟩

/-- C1 (counterexample): uid `0` is non-positive, yet `savemessage` at
uid `0` on the empty folder inserts into the mirror, writes to the store
and logs an `INSERT` — the claimed no-op for `uid <= 0` fails at `0`. -/
theorem savemessage_zero_uid_mutates :
    (savemessage ⟨[], [], []⟩ 0 "" ∅ 0 0 ∅).2.mirror ≠ ([] : Mirror) ∧
      (savemessage ⟨[], [], []⟩ 0 "" ∅ 0 0 ∅).2.store ≠ ([] : Store) ∧
      (savemessage ⟨[], [], []⟩ 0 "" ∅ 0 0 ∅).2.log ≠ [] := by
  refine ⟨?_, ?_, ?_⟩ <;> decide

/-- C10 (confirmed): `savemessagelabels` with `mtime = 0` — falsy in
Python although a valid timestamp — updates only the labels: the mirror
record keeps its mtime, every store row keeps its mtime, and the logged
statement is the labels-only `UPDATE`; a nonzero mtime argument updates
labels and mtime together via the two-column `UPDATE`. -/
theorem savemessagelabels_zero_mtime (st : FolderState) (uid : Int)
    (r : MsgRecord) (labels : Finset String)
    (h : mlookup st.mirror uid = some r) :
    (∃ st1, savemessagelabels st uid labels (some 0) = some st1 ∧
       mlookup st1.mirror uid = some { r with labels := labels } ∧
       st1.store.map DbRow.mtime = st.store.map DbRow.mtime ∧
       st1.log = st.log ++ [[SqlStmt.updateLabels (serializeLabels labels) uid]]) ∧
    (∀ t : Int, t ≠ 0 →
       ∃ st2, savemessagelabels st uid labels (some t) = some st2 ∧
         mlookup st2.mirror uid = some { r with labels := labels, mtime := t } ∧
         st2.log = st.log ++ [[SqlStmt.updateLabelsMtime (serializeLabels labels) t uid]]) := by
  have hk : hasKey st.mirror uid = true :=
    (hasKey_iff_mlookup st.mirror uid).mpr (by rw [h]; rfl)
  constructor
  · have heq : savemessagelabels st uid labels (some 0) =
        some (sqlWrite { st with mirror := mupd uid (fun rr => { rr with labels := labels }) st.mirror }
          [.updateLabels (serializeLabels labels) uid]) := by
      simp [savemessagelabels, msetLabels, hk, pyTruthy]
    refine ⟨_, heq, ?_, ?_, ?_⟩
    · show mlookup (mupd uid (fun rr => { rr with labels := labels }) st.mirror) uid =
          some { r with labels := labels }
      exact mlookup_mupd_self _ h
    · show (rupd uid (fun row => { row with labels := some (serializeLabels labels) }) st.store).map
          DbRow.mtime = st.store.map DbRow.mtime
      simp only [rupd, List.map_map]
      refine congrArg (fun fn => List.map fn st.store) (funext fun row => ?_)
      by_cases hrow : row.id = uid <;> simp [Function.comp, hrow]
    · rfl
  · intro t ht
    have heq : savemessagelabels st uid labels (some t) =
        some (sqlWrite { st with mirror := mupd uid (fun rr => { rr with mtime := t }) (mupd uid (fun rr => { rr with labels := labels }) st.mirror) } [.updateLabelsMtime (serializeLabels labels) t uid]) := by
      simp [savemessagelabels, msetLabels, msetMtime, hk, pyTruthy, hasKey_mupd, ht]
    refine ⟨_, heq, ?_, ?_⟩
    · show mlookup (mupd uid (fun rr => { rr with mtime := t }) (mupd uid (fun rr => { rr with labels := labels }) st.mirror)) uid = some { r with labels := labels, mtime := t }
      exact mlookup_mupd_self _ (mlookup_mupd_self _ h)
    · rfl

theorem savemessagelabels_zero_mtime_witness :
    mlookup [((1 : Int), (⟨1, ∅, ∅, 0, 5⟩ : MsgRecord))] 1 = some ⟨1, ∅, ∅, 0, 5⟩ ∧
      ((∃ st1, savemessagelabels ⟨[(1, ⟨1, ∅, ∅, 0, 5⟩)], [], []⟩ 1 {"x"} (some 0) = some st1 ∧
          mlookup st1.mirror 1 = some ⟨1, ∅, {"x"}, 0, 5⟩ ∧
          st1.store.map DbRow.mtime = ([] : Store).map DbRow.mtime ∧
          st1.log = [] ++ [[SqlStmt.updateLabels (serializeLabels {"x"}) 1]]) ∧
       (∀ t : Int, t ≠ 0 →
          ∃ st2, savemessagelabels ⟨[(1, ⟨1, ∅, ∅, 0, 5⟩)], [], []⟩ 1 {"x"} (some t) = some st2 ∧
            mlookup st2.mirror 1 = some ⟨1, ∅, {"x"}, 0, t⟩ ∧
            st2.log = [] ++ [[SqlStmt.updateLabelsMtime (serializeLabels {"x"}) t 1]])) :=
  ⟨by decide, savemessagelabels_zero_mtime ⟨[(1, ⟨1, ∅, ∅, 0, 5⟩)], [], []⟩ 1
    ⟨1, ∅, ∅, 0, 5⟩ {"x"} (by decide)⟩

/-- C3 (confirmed): under the data-model invariant that mirror UIDs are
positive, `savemessage` on a UID already present in the mirror degrades to
`savemessageflags` — the assertion inside it succeeds, `savemessage`
returns the uid with exactly that state, and the single logged statement
is the flags `UPDATE`, never an `INSERT`. -/
theorem savemessage_existing_uid_updates_flags (st : FolderState) (uid : Int)
    (content : String) (flags : Finset Char) (rtime mtime : Int)
    (labels : Finset String)
    (hWF : ∀ p ∈ st.mirror, 0 < p.1) (hmem : hasKey st.mirror uid = true) :
    ∃ st1, savemessageflags st uid flags = some st1 ∧
      savemessage st uid content flags rtime mtime labels = (uid, st1) ∧
      st1.mirror = mupd uid (fun r => { r with flags := flags }) st.mirror ∧
      st1.store = rupd uid (fun r => { r with flags := serializeFlags flags }) st.store ∧
      st1.log = st.log ++ [[SqlStmt.updateFlags (serializeFlags flags) uid]] := by
  have h0 : 0 < uid := by
    obtain ⟨p, hp, he⟩ := List.any_eq_true.mp hmem
    simp only [decide_eq_true_eq] at he
    exact he ▸ hWF p hp
  have hneg : ¬ uid < 0 := not_lt_of_ge (le_of_lt h0)
  have heqf : savemessageflags st uid flags =
      some (sqlWrite { st with mirror := mupd uid (fun r => { r with flags := flags }) st.mirror } [.updateFlags (serializeFlags flags) uid]) := by
    simp [savemessageflags, msetFlags, hmem]
  refine ⟨_, heqf, ?_, ?_, ?_, ?_⟩
  · simp [savemessage, hneg, hmem, heqf]
  · rfl
  · rfl
  · rfl

theorem savemessage_existing_uid_updates_flags_witness :
    (∀ p ∈ [((1 : Int), (⟨1, ∅, ∅, 0, 0⟩ : MsgRecord))], 0 < p.1) ∧
      hasKey [((1 : Int), (⟨1, ∅, ∅, 0, 0⟩ : MsgRecord))] 1 = true ∧
      (∃ st1, savemessageflags ⟨[(1, ⟨1, ∅, ∅, 0, 0⟩)], [], []⟩ 1 {'S'} = some st1 ∧
        savemessage ⟨[(1, ⟨1, ∅, ∅, 0, 0⟩)], [], []⟩ 1 "" {'S'} 0 0 ∅ = (1, st1) ∧
        st1.mirror = mupd 1 (fun r => { r with flags := {'S'} }) [(1, ⟨1, ∅, ∅, 0, 0⟩)] ∧
        st1.store = rupd 1 (fun r => { r with flags := serializeFlags {'S'} }) [] ∧
        st1.log = [] ++ [[SqlStmt.updateFlags (serializeFlags {'S'}) 1]]) :=
  ⟨by decide, by decide,
    savemessage_existing_uid_updates_flags ⟨[(1, ⟨1, ∅, ∅, 0, 0⟩)], [], []⟩ 1 "" {'S'} 0 0 ∅
      (by decide) (by decide)⟩

/-! ## Store file, schema versions and migration (source: `openfiles`,
`__upgrade_db`, `__create_db`) -/

/-- Shape of the `status` table: at schema version 1 a row is `(id, flags)`
only; at version 2 it also has the `mtime` and `labels` columns. -/
inductive StatusSchema where
  | v1 (rows : List (Int × String))
  | v2 (rows : List DbRow)
deriving DecidableEq

/-- A database file: the `db_version` value held by the `metadata` table
(`none` when the metadata query raises, i.e. the file is missing or
corrupt) and the `status` table. -/
structure DbFile where
  metaVersion : Option String
  schema : StatusSchema
deriving DecidableEq

/-- `cur_version = 2`. -/
def cur_version : Int := 2

/-- `__create_db`: fresh metadata (`db_version = '2'`) and an empty
version-2 `status` table. -/
def create_db : DbFile :=
  { metaVersion := some "2", schema := .v2 [] }

/-- `__upgrade_db(from_ver)`: for `from_ver <= 1`, one atomic script adds
`mtime INTEGER DEFAULT 0` and `labels VARCHAR(256) DEFAULT ''` to `status`
and sets the metadata row to `'2'`.  `none` models the script raising
(duplicate column) if the table already has the new columns. -/
def upgrade_db (from_ver : Int) (db : DbFile) : Option DbFile :=
  if from_ver ≤ 1 then
    match db.schema with
    | .v1 rows => some ⟨some "2", .v2 (rows.map (fun p => ⟨p.1, p.2, 0, some ""⟩))⟩
    | .v2 _ => none
  else some db

/-- Python `int(...)` on a non-negative digit string (`none` models
`ValueError`); this is the only shape `db_version` ever takes. -/
def pyInt? (s : String) : Option Int :=
  match s.data with
  | [] => none
  | cs =>
      if cs.all Char.isDigit then
        some (cs.foldl (fun n c => n * 10 + ((c.toNat : Int) - 48)) 0)
      else none

/-- The version check in `openfiles`: a failing metadata query recreates
the database (marking the folder new); otherwise the version string is
parsed with `int(...)` (`none` models `ValueError`) and compared against
`cur_version`, upgrading when lower.  Returns the resulting file and the
`_newfolder` flag. -/
def openfiles (db : DbFile) : Option (DbFile × Bool) :=
  match db.metaVersion with
  | none => some (create_db, true)
  | some v =>
    match pyInt? v with
    | none => none
    | some ver =>
        if ver < cur_version then (upgrade_db ver db).map (fun d => (d, false))
        else some (db, false)

/-- C4 (confirmed): opening a store at metadata version `'1'` whose status
table lacks the `mtime`/`labels` columns runs the 1→2 migration: every
pre-existing row gains `mtime = 0` and `labels = ''`, and the metadata
`db_version` row becomes `'2'`. -/
theorem openfiles_upgrades_v1_to_v2 (rows : List (Int × String)) (db : DbFile)
    (hv : db.metaVersion = some "1") (hs : db.schema = .v1 rows) :
    openfiles db =
      some (⟨some "2", .v2 (rows.map (fun p => ⟨p.1, p.2, 0, some ""⟩))⟩, false) := by
  have h1 : pyInt? "1" = some 1 := by decide
  simp [openfiles, hv, hs, h1, upgrade_db, cur_version]

theorem openfiles_upgrades_v1_to_v2_witness :
    (⟨some "1", .v1 [(7, "FS")]⟩ : DbFile).metaVersion = some "1" ∧
      (⟨some "1", .v1 [(7, "FS")]⟩ : DbFile).schema = .v1 [(7, "FS")] ∧
      openfiles ⟨some "1", .v1 [(7, "FS")]⟩ =
        some (⟨some "2", .v2 ([(7, "FS")].map (fun p => ⟨p.1, p.2, 0, some ""⟩))⟩, false) :=
  ⟨rfl, rfl, openfiles_upgrades_v1_to_v2 [(7, "FS")] ⟨some "1", .v1 [(7, "FS")]⟩ rfl rfl⟩

/-! ## The shared `DatabaseFileLock` registry (source: `DatabaseFileLock`,
`LocalStatusSQLiteFolder.locks`, `__init__`, `openfiles`, `closefiles`) -/

/-- The class attribute `locks`: filename → user counter of the
`DatabaseFileLock` registered for that file. -/
abbrev LockRegistry := List (String × Int)

/-- Look up the lock registered for a path. -/
def regFind (reg : LockRegistry) (p : String) : Option Int :=
  (reg.find? (fun e => e.1 = p)).map (fun e => e.2)

/-- `__init__`: `if self.filename not in locks: locks[self.filename] =
DatabaseFileLock()` (a fresh lock has `_counter = 0`). -/
def initFolderLock (reg : LockRegistry) (p : String) : LockRegistry :=
  if (regFind reg p).isSome then reg else reg ++ [(p, 0)]

/-- `registerNewUser` on the lock shared under path `p`
(`self._counter += 1`, called from `openfiles`). -/
def registerNewUser (reg : LockRegistry) (p : String) : LockRegistry :=
  reg.map (fun e => if e.1 = p then (e.1, e.2 + 1) else e)

/-- `removeOneUser` (`self._counter -= 1`, called from `closefiles`). -/
def removeOneUser (reg : LockRegistry) (p : String) : LockRegistry :=
  reg.map (fun e => if e.1 = p then (e.1, e.2 - 1) else e)

/-- `shouldClose`: `self._counter < 1`. -/
def shouldClose (reg : LockRegistry) (p : String) : Bool :=
  decide (((regFind reg p).getD 0) < 1)

/-- The lock bookkeeping of `openfiles`: register as one more user. -/
def openfilesLock (reg : LockRegistry) (p : String) : LockRegistry :=
  registerNewUser reg p

/-- `closefiles`: drop one user and close the physical connection only
when `shouldClose()`; returns the registry and whether the connection is
still open. -/
def closefilesLock (reg : LockRegistry) (p : String) (connOpen : Bool) :
    LockRegistry × Bool :=
  let reg1 := removeOneUser reg p
  if shouldClose reg1 p then (reg1, false) else (reg1, connOpen)

theorem regFind_append_self {reg : LockRegistry} {p : String} (x : Int)
    (h : regFind reg p = none) : regFind (reg ++ [(p, x)]) p = some x := by
  induction reg with
  | nil => simp [regFind]
  | cons e t ih =>
      by_cases he : e.1 = p
      · simp [regFind, List.find?_cons, he] at h
      · have h' : regFind t p = none := by
          simpa [regFind, List.find?_cons, he] using h
        simpa [regFind, List.find?_cons, he] using ih h'

theorem regFind_registerNewUser (reg : LockRegistry) (p : String) :
    regFind (registerNewUser reg p) p = (regFind reg p).map (fun c => c + 1) := by
  induction reg with
  | nil => rfl
  | cons e t ih =>
      by_cases he : e.1 = p <;>
        simp [regFind, registerNewUser, List.find?_cons, he] at ih ⊢ <;>
        simpa [regFind, registerNewUser] using ih

theorem regFind_removeOneUser (reg : LockRegistry) (p : String) :
    regFind (removeOneUser reg p) p = (regFind reg p).map (fun c => c - 1) := by
  induction reg with
  | nil => rfl
  | cons e t ih =>
      by_cases he : e.1 = p <;>
        simp [regFind, removeOneUser, List.find?_cons, he] at ih ⊢ <;>
        simpa [regFind, removeOneUser] using ih

/-- C9 (confirmed): two cache instances opened on the same path share the
single registered `DatabaseFileLock`, whose user count is then 2; the
first `closefiles` drops it to 1, `shouldClose()` is false and the
connection stays open; the second drops it to 0, `shouldClose()` is true
and the connection is closed. -/
theorem shared_lock_refcount_close (reg0 : LockRegistry) (path : String)
    (h : regFind reg0 path = none) :
    (initFolderLock (openfilesLock (initFolderLock reg0 path) path) path =
        openfilesLock (initFolderLock reg0 path) path) ∧
    (regFind (openfilesLock (initFolderLock (openfilesLock (initFolderLock reg0 path) path) path) path) path = some 2) ∧
    (let reg2 := openfilesLock (initFolderLock (openfilesLock (initFolderLock reg0 path) path) path) path
     let c1 := closefilesLock reg2 path true
     regFind c1.1 path = some 1 ∧ shouldClose c1.1 path = false ∧ c1.2 = true ∧
       (let c2 := closefilesLock c1.1 path c1.2
        regFind c2.1 path = some 0 ∧ shouldClose c2.1 path = true ∧ c2.2 = false)) := by
  have h0 : regFind (initFolderLock reg0 path) path = some 0 := by
    rw [initFolderLock, if_neg (by simp [h])]
    exact regFind_append_self 0 h
  have h1 : regFind (openfilesLock (initFolderLock reg0 path) path) path = some 1 := by
    rw [openfilesLock, regFind_registerNewUser, h0]; rfl
  have hreuse : initFolderLock (openfilesLock (initFolderLock reg0 path) path) path =
      openfilesLock (initFolderLock reg0 path) path := by
    rw [initFolderLock, if_pos (by simp [h1])]
  have h2 : regFind (openfilesLock (initFolderLock (openfilesLock (initFolderLock reg0 path) path) path) path) path = some 2 := by
    rw [hreuse, openfilesLock, regFind_registerNewUser, h1]; rfl
  have hc1 : regFind (removeOneUser (openfilesLock (initFolderLock (openfilesLock (initFolderLock reg0 path) path) path) path) path) path = some 1 := by
    rw [regFind_removeOneUser, h2]; rfl
  have hs1 : shouldClose (removeOneUser (openfilesLock (initFolderLock (openfilesLock (initFolderLock reg0 path) path) path) path) path) path = false := by
    rw [shouldClose, hc1]; rfl
  have hc2 : regFind (removeOneUser (removeOneUser (openfilesLock (initFolderLock (openfilesLock (initFolderLock reg0 path) path) path) path) path) path) path = some 0 := by
    rw [regFind_removeOneUser, hc1]; rfl
  have hs2 : shouldClose (removeOneUser (removeOneUser (openfilesLock (initFolderLock (openfilesLock (initFolderLock reg0 path) path) path) path) path) path) path = true := by
    rw [shouldClose, hc2]; rfl
  have hclose1 : closefilesLock (openfilesLock (initFolderLock (openfilesLock (initFolderLock reg0 path) path) path) path) path true =
      (removeOneUser (openfilesLock (initFolderLock (openfilesLock (initFolderLock reg0 path) path) path) path) path, true) := by
    simp [closefilesLock, hs1]
  have hclose2 : closefilesLock (removeOneUser (openfilesLock (initFolderLock (openfilesLock (initFolderLock reg0 path) path) path) path) path) path true =
      (removeOneUser (removeOneUser (openfilesLock (initFolderLock (openfilesLock (initFolderLock reg0 path) path) path) path) path) path, false) := by
    simp [closefilesLock, hs2]
  refine ⟨hreuse, h2, ?_⟩
  simp only [hclose1, hclose2]
  exact ⟨hc1, hs1, trivial, hc2, hs2, trivial⟩

theorem shared_lock_refcount_close_witness :
    regFind [] "f" = none ∧
      ((initFolderLock (openfilesLock (initFolderLock [] "f") "f") "f" =
          openfilesLock (initFolderLock [] "f") "f") ∧
       (regFind (openfilesLock (initFolderLock (openfilesLock (initFolderLock [] "f") "f") "f") "f") "f" = some 2) ∧
       (let reg2 := openfilesLock (initFolderLock (openfilesLock (initFolderLock [] "f") "f") "f") "f"
        let c1 := closefilesLock reg2 "f" true
        regFind c1.1 "f" = some 1 ∧ shouldClose c1.1 "f" = false ∧ c1.2 = true ∧
          (let c2 := closefilesLock c1.1 "f" c1.2
           regFind c2.1 "f" = some 0 ∧ shouldClose c2.1 "f" = true ∧ c2.2 = false))) :=
  ⟨rfl, shared_lock_refcount_close [] "f" rfl⟩

/-! ## `__sql_write` retry and error policy (source: `__sql_write`) -/

/-- The `sqlite.OperationalError` messages `__sql_write` distinguishes. -/
inductive SqlErr where
  | locked    -- args[0] == 'database is locked'
  | noTrans   -- args[0] == 'cannot commit - no transaction is active'
  | otherErr  -- any other operational error
deriving DecidableEq

/-- One pass through the critical section: what `execute`/`executemany`
raises (if anything) and, when a commit is attempted, what `commit`
raises. -/
structure Attempt where
  execErr : Option SqlErr
  commitErr : Option SqlErr
deriving DecidableEq

/-- Control-flow signal of one loop iteration. -/
inductive LoopSignal where
  | done
  | retry
  | raised
deriving DecidableEq

/-- One iteration of the `while not success` body: `success` is set only
after a clean execute; the commit is attempted only when
`_in_transactions` is zero; `'database is locked'` clears `success` and
loops; `'cannot commit - no transaction is active'` is passed over (which
is a retry if `success` was still false, i.e. the error came from the
execute, and a success if it came from the commit); anything else is
re-raised.  The second component records whether a commit was attempted. -/
def runAttempt (inTransactions : Nat) (a : Attempt) : LoopSignal × Bool :=
  match a.execErr with
  | some .locked => (.retry, false)
  | some .noTrans => (.retry, false)
  | some .otherErr => (.raised, false)
  | none =>
      if inTransactions ≠ 0 then (.done, false)
      else
        match a.commitErr with
        | none => (.done, true)
        | some .noTrans => (.done, true)
        | some .locked => (.retry, true)
        | some .otherErr => (.raised, true)

/-- Outcome of running the retry loop for a bounded number of iterations
(`running` = the loop has neither returned nor raised yet). -/
inductive LoopResult where
  | success
  | raised
  | running
deriving DecidableEq

/-- The `while not success` loop of `__sql_write`, fuelled: attempt `k` of
the stream `f` is the behaviour of the `k`-th pass through the critical
section. -/
def sqlWriteLoop (inTransactions : Nat) (f : Nat → Attempt) : Nat → LoopResult
  | 0 => .running
  | n + 1 =>
      match (runAttempt inTransactions (f 0)).1 with
      | .done => .success
      | .raised => .raised
      | .retry => sqlWriteLoop inTransactions (fun k => f (k + 1)) n

/-- C7 (confirmed): `__sql_write` (i) retries forever while the store
keeps reporting `database is locked` — after any number of iterations it
has neither raised nor given up; (ii) swallows
`cannot commit - no transaction is active` raised by the commit and treats
the write as success; (iii) propagates any other operational error, whether
from the execute or from the commit; and (iv) attempts the immediate
commit exactly when no transaction scope is open
(`_in_transactions = 0`). -/
theorem sql_write_retry_policy (inTransactions : Nat) (f : Nat → Attempt) :
    ((∀ k, (f k).execErr = some .locked) →
       ∀ n, sqlWriteLoop inTransactions f n = .running) ∧
    ((f 0).execErr = none → inTransactions = 0 → (f 0).commitErr = some .noTrans →
       ∀ n, 1 ≤ n → sqlWriteLoop inTransactions f n = .success) ∧
    ((f 0).execErr = some .otherErr →
       ∀ n, 1 ≤ n → sqlWriteLoop inTransactions f n = .raised) ∧
    ((f 0).execErr = none → inTransactions = 0 → (f 0).commitErr = some .otherErr →
       ∀ n, 1 ≤ n → sqlWriteLoop inTransactions f n = .raised) ∧
    ((f 0).execErr = none →
       ((runAttempt inTransactions (f 0)).2 = true ↔ inTransactions = 0)) := by
  refine ⟨?_, ?_, ?_, ?_, ?_⟩
  · intro hlock n
    induction n generalizing f with
    | zero => rfl
    | succ n ih =>
        have h0 := hlock 0
        simp only [sqlWriteLoop, runAttempt, h0]
        exact ih (fun k => f (k + 1)) (fun k => hlock (k + 1))
  · intro hexec htr hcommit n hn
    obtain ⟨m, rfl⟩ := Nat.exists_eq_add_of_le hn
    simp [sqlWriteLoop, runAttempt, hexec, htr, hcommit, Nat.add_comm]
  · intro hexec n hn
    obtain ⟨m, rfl⟩ := Nat.exists_eq_add_of_le hn
    simp [sqlWriteLoop, runAttempt, hexec, Nat.add_comm]
  · intro hexec htr hcommit n hn
    obtain ⟨m, rfl⟩ := Nat.exists_eq_add_of_le hn
    simp [sqlWriteLoop, runAttempt, hexec, htr, hcommit, Nat.add_comm]
  · intro hexec
    constructor
    · intro hc
      by_contra htr
      simp [runAttempt, hexec, htr] at hc
    · intro htr
      simp only [runAttempt, hexec, htr]
      rcases hcm : (f 0).commitErr with _ | e
      · simp
      · cases e <;> simp

theorem sql_write_retry_policy_witness :
    ((fun _ => (⟨none, some .noTrans⟩ : Attempt)) 0).execErr = none ∧ (0 : Nat) = 0 ∧
      ((fun _ => (⟨none, some .noTrans⟩ : Attempt)) 0).commitErr = some .noTrans ∧
      (1 : Nat) ≤ 3 ∧
      sqlWriteLoop 0 (fun _ => (⟨none, some .noTrans⟩ : Attempt)) 3 = .success :=
  ⟨rfl, rfl, rfl, by decide,
    (sql_write_retry_policy 0 (fun _ => ⟨none, some .noTrans⟩)).2.1 rfl rfl rfl 3 (by decide)⟩

/-! ## The transaction-scope counter (source: `__enter__`, `__exit__`) -/

/-- `__enter__`: outside fsync mode (`dofsync()` false, modelled from the
spec's "auto-commit mode makes scope entry/exit no-ops") the connection
must exist (`assert self.connection is not None`, `none` on failure) and
the nesting counter is incremented. -/
def txEnter (dofsync : Bool) (connOpen : Bool) (n : Int) : Option Int :=
  if !dofsync then
    if connOpen then some (n + 1) else none
  else some n

/-- `__exit__`: outside fsync mode the counter must be positive
(`assert self._in_transactions > 0`, `none` on failure), is decremented,
and a commit is issued exactly when it drops below 1.  Returns the new
counter and whether this exit committed. -/
def txExit (dofsync : Bool) (n : Int) : Option (Int × Bool) :=
  if !dofsync then
    if n > 0 then some (n - 1, decide (n - 1 < 1)) else none
  else some (n, false)

/-- A sequence of scope entries and exits. -/
inductive TxOp where
  | enter
  | exitScope
deriving DecidableEq

/-- Run a sequence of `__enter__`/`__exit__` calls from counter `n`. -/
def runTx (dofsync : Bool) (connOpen : Bool) : Int → List TxOp → Option Int
  | n, [] => some n
  | n, .enter :: t => (txEnter dofsync connOpen n).bind (fun m => runTx dofsync connOpen m t)
  | n, .exitScope :: t => (txExit dofsync n).bind (fun r => runTx dofsync connOpen r.1 t)

/-- C8 (confirmed): with transactions active (`dofsync` false, open
connection) (i) any successful run of `__enter__`/`__exit__` calls keeps
`_in_transactions` non-negative; (ii) every `__enter__` increments the
counter; (iii) every `__exit__` on a positive counter decrements it and
commits exactly when the counter returns to zero; and (iv) an `__exit__`
beyond the matching `__enter__`s (counter not positive) is an assertion
failure, not a recoverable outcome. -/
theorem transaction_counter_invariants :
    (∀ (ops : List TxOp) (n m : Int), 0 ≤ n →
       runTx false true n ops = some m → 0 ≤ m) ∧
    (∀ n : Int, txEnter false true n = some (n + 1)) ∧
    (∀ n : Int, 0 < n → txExit false n = some (n - 1, decide (n = 1))) ∧
    (∀ n : Int, n ≤ 0 → txExit false n = none) := by
  refine ⟨?_, ?_, ?_, ?_⟩
  · intro ops
    induction ops with
    | nil =>
        intro n m hn h
        simp only [runTx, Option.some.injEq] at h
        exact h ▸ hn
    | cons op t ih =>
        intro n m hn h
        cases op with
        | enter =>
            simp only [runTx, txEnter, Bool.not_true, Bool.not_false, if_true, if_pos rfl] at h
            simp only [Option.some_bind] at h
            exact ih (n + 1) m (by omega) h
        | exitScope =>
            simp only [runTx, txExit, Bool.not_false, if_true] at h
            by_cases hp : n > 0
            · rw [if_pos hp] at h
              simp only [Option.some_bind] at h
              exact ih (n - 1) m (by omega) h
            · rw [if_neg hp] at h
              simp at h
  · intro n; rfl
  · intro n hp
    have hd : decide (n - 1 < 1) = decide (n = 1) := by
      rcases Decidable.em (n = 1) with h1 | h1 <;> simp [h1] <;> omega
    simp [txExit, hp, hd]
  · intro n hp
    simp [txExit, show ¬ n > 0 by omega]

theorem transaction_counter_invariants_witness :
    (0 : Int) ≤ 0 ∧
      runTx false true 0 [.enter, .enter, .exitScope, .exitScope] = some 0 ∧
      (0 : Int) ≤ 0 :=
  ⟨le_refl 0, by decide,
    transaction_counter_invariants.1 [.enter, .enter, .exitScope, .exitScope] 0 0
      (le_refl 0) (by decide)⟩

/-! ## Deletion lemmas (source: `deletemessage`, `deletemessages`) -/

theorem hasKey_of_mem {m : Mirror} {p : Int × MsgRecord} (h : p ∈ m) :
    hasKey m p.1 = true :=
  List.any_eq_true.mpr ⟨p, h, by simp⟩

theorem hasKey_filter_ne {m : Mirror} {u v : Int} (h : v ≠ u) :
    hasKey (m.filter (fun p => p.1 ≠ u)) v = hasKey m v := by
  induction m with
  | nil => rfl
  | cons p t ih =>
      by_cases hp : p.1 = u
      · rw [List.filter_cons_of_neg (by simp [hp]), hasKey_cons,
          decide_eq_false (by rw [hp]; exact fun e => h e.symm), Bool.false_or]
        exact ih
      · rw [List.filter_cons_of_pos (by simp [hp]), hasKey_cons, hasKey_cons, ih]

/-- Success and effect of the `del` loop of `deletemessages` over an
already-filtered, duplicate-free uid list. -/
theorem delMany_eq (flt : List Int) : ∀ (m : Mirror), flt.Nodup →
    (∀ u ∈ flt, hasKey m u = true) →
    flt.foldlM mdelKey m = some (m.filter (fun p => !(flt.contains p.1))) := by
  induction flt with
  | nil =>
      intro m _ _
      simp [List.foldlM]
  | cons u t ih =>
      intro m hnd hkeys
      have hk : hasKey m u = true := hkeys u (List.mem_cons_self u t)
      have hstep : mdelKey m u = some (m.filter (fun p => p.1 ≠ u)) := by
        simp [mdelKey, hk]
      rw [List.foldlM_cons, hstep]
      simp only [Option.pure_def, Option.bind_eq_bind, Option.some_bind]
      rw [ih (m.filter (fun p => p.1 ≠ u)) hnd.of_cons ?_]
      · rw [List.filter_filter]
        exact congrArg (Option.some) (List.filter_congr fun p _ => by
          by_cases hp : p.1 = u <;> simp [hp])
      · intro v hv
        have hvu : v ≠ u := fun e => (List.nodup_cons.mp hnd).1 (e ▸ hv)
        rw [hasKey_filter_ne hvu]
        exact hkeys v (List.mem_cons_of_mem u hv)

/-- Effect of the single batched `DELETE` statement on the store. -/
theorem deleteMany_store (flt : List Int) : ∀ s : Store,
    (flt.map SqlStmt.deleteUid).foldl applyStmt s =
      s.filter (fun r => !(flt.contains r.id)) := by
  induction flt with
  | nil => intro s; simp
  | cons u t ih =>
      intro s
      rw [List.map_cons, List.foldl_cons]
      rw [show applyStmt s (SqlStmt.deleteUid u) = s.filter (fun r => r.id ≠ u) from rfl]
      rw [ih, List.filter_filter]
      exact List.filter_congr fun r _ => by
        by_cases hr : r.id = u <;> simp [hr]

/-- C5 (amended): provided the present UIDs occur at most once in the
argument list, `deletemessages` succeeds (absent UIDs are silently
ignored), removes from mirror and store exactly the requested UIDs that
were present in the mirror, and issues at most one batched statement
(exactly one when something is deleted, none otherwise); `deletemessage`
on an absent UID changes nothing.  (For the duplicate-UID failure of the
original claim see the counterexample.) -/
theorem deletemessages_filters_present (st : FolderState) (uidlist : List Int)
    (hnd : (uidlist.filter (fun u => hasKey st.mirror u)).Nodup) :
    (∃ st1, deletemessages st uidlist = some st1 ∧
       st1.mirror = st.mirror.filter
         (fun p => !((uidlist.filter (fun u => hasKey st.mirror u)).contains p.1)) ∧
       st1.store = st.store.filter
         (fun r => !((uidlist.filter (fun u => hasKey st.mirror u)).contains r.id)) ∧
       st1.log = (if (uidlist.filter (fun u => hasKey st.mirror u)).isEmpty then st.log
         else st.log ++ [(uidlist.filter (fun u => hasKey st.mirror u)).map SqlStmt.deleteUid]) ∧
       st1.log.length ≤ st.log.length + 1) ∧
    (∀ u, hasKey st.mirror u = false → deletemessage st u = st) := by
  constructor
  · by_cases hemp : (uidlist.filter (fun u => hasKey st.mirror u)).isEmpty = true
    · have hnil : uidlist.filter (fun u => hasKey st.mirror u) = [] :=
        List.isEmpty_iff.mp hemp
      have heq : deletemessages st uidlist = some st := by
        rw [deletemessages]
        simp only [hemp, if_true]
      refine ⟨st, heq, ?_, ?_, ?_, Nat.le_succ _⟩
      · rw [hnil]; simp
      · rw [hnil]; simp
      · rw [if_pos hemp]
    · have hkeys : ∀ u ∈ uidlist.filter (fun uu => hasKey st.mirror uu),
          hasKey st.mirror u = true := fun u hu => List.of_mem_filter hu
      have hfold := delMany_eq (uidlist.filter (fun u => hasKey st.mirror u))
        st.mirror hnd hkeys
      have heq : deletemessages st uidlist = some ⟨
          st.mirror.filter
            (fun p => !((uidlist.filter (fun u => hasKey st.mirror u)).contains p.1)),
          (((uidlist.filter (fun u => hasKey st.mirror u)).map SqlStmt.deleteUid).foldl
            applyStmt st.store),
          st.log ++ [(uidlist.filter (fun u => hasKey st.mirror u)).map SqlStmt.deleteUid]⟩ := by
        rw [deletemessages]
        simp only [hemp, if_false]
        rw [show (sqlWrite st ((uidlist.filter (fun u => hasKey st.mirror u)).map
          SqlStmt.deleteUid)).mirror = st.mirror from rfl]
        rw [hfold]
        rfl
      refine ⟨_, heq, rfl, deleteMany_store _ st.store, ?_, ?_⟩
      · rw [if_neg hemp]
      · simp
  · intro u hu
    rw [deletemessage]
    simp [hu]

theorem deletemessages_filters_present_witness :
    ([(2 : Int), 3].filter (fun u => hasKey [((2 : Int), (⟨2, ∅, ∅, 0, 0⟩ : MsgRecord))] u)).Nodup ∧
      ((∃ st1, deletemessages ⟨[(2, ⟨2, ∅, ∅, 0, 0⟩)], [⟨2, "", 0, some ""⟩], []⟩ [2, 3] = some st1 ∧
         st1.mirror = [((2 : Int), (⟨2, ∅, ∅, 0, 0⟩ : MsgRecord))].filter
           (fun p => !(([(2 : Int), 3].filter (fun u => hasKey [((2 : Int), (⟨2, ∅, ∅, 0, 0⟩ : MsgRecord))] u)).contains p.1)) ∧
         st1.store = [(⟨2, "", 0, some ""⟩ : DbRow)].filter
           (fun r => !(([(2 : Int), 3].filter (fun u => hasKey [((2 : Int), (⟨2, ∅, ∅, 0, 0⟩ : MsgRecord))] u)).contains r.id)) ∧
         st1.log = (if ([(2 : Int), 3].filter (fun u => hasKey [((2 : Int), (⟨2, ∅, ∅, 0, 0⟩ : MsgRecord))] u)).isEmpty then ([] : List (List SqlStmt))
           else [] ++ [([(2 : Int), 3].filter (fun u => hasKey [((2 : Int), (⟨2, ∅, ∅, 0, 0⟩ : MsgRecord))] u)).map SqlStmt.deleteUid]) ∧
         st1.log.length ≤ ([] : List (List SqlStmt)).length + 1) ∧
       (∀ u, hasKey [((2 : Int), (⟨2, ∅, ∅, 0, 0⟩ : MsgRecord))] u = false →
         deletemessage ⟨[(2, ⟨2, ∅, ∅, 0, 0⟩)], [⟨2, "", 0, some ""⟩], []⟩ u =
           ⟨[(2, ⟨2, ∅, ∅, 0, 0⟩)], [⟨2, "", 0, some ""⟩], []⟩)) :=
  ⟨by decide,
    deletemessages_filters_present ⟨[(2, ⟨2, ∅, ∅, 0, 0⟩)], [⟨2, "", 0, some ""⟩], []⟩
      [2, 3] (by decide)⟩

/-- C5 (counterexample): with UID 1 present, `deletemessages` on the list
`[1, 1]` keeps both copies after the presence filter and the second
`del self.messagelist[1]` raises `KeyError` — the call does not return
silently, refuting the claim for arbitrary uid lists. -/
theorem deletemessages_duplicate_uid_raises :
    deletemessages ⟨[(1, ⟨1, ∅, ∅, 0, 0⟩)], [], []⟩ [1, 1] = none := by
  decide

/-! ## Serialization round-trip (source: `saveall`, `cachemessagelist`) -/

theorem parseFlags_serializeFlags (f : Finset Char) :
    parseFlags (serializeFlags f) = f :=
  pySorted_toFinset f

theorem splitCommaL_cons (c : Char) (cs : List Char) :
    splitCommaL (c :: cs) =
      if c = ',' then [] :: splitCommaL cs
      else match splitCommaL cs with
        | [] => [[c]]
        | p :: ps => (c :: p) :: ps := rfl

theorem splitCommaL_no_comma {l : List Char} (h : ',' ∉ l) :
    splitCommaL l = [l] := by
  induction l with
  | nil => rfl
  | cons c cs ih =>
      have hc : ¬ c = ',' := fun e => h (e ▸ List.mem_cons_self c cs)
      have hcs : ',' ∉ cs := fun hm => h (List.mem_cons_of_mem c hm)
      rw [splitCommaL_cons, if_neg hc, ih hcs]

theorem splitCommaL_append {a : List Char} (r : List Char) (h : ',' ∉ a) :
    splitCommaL (a ++ ',' :: r) = a :: splitCommaL r := by
  induction a with
  | nil => simp [splitCommaL_cons]
  | cons c cs ih =>
      have hc : ¬ c = ',' := fun e => h (e ▸ List.mem_cons_self c cs)
      have hcs : ',' ∉ cs := fun hm => h (List.mem_cons_of_mem c hm)
      rw [List.cons_append, splitCommaL_cons, if_neg hc, ih hcs]

theorem splitCommaL_space (x : List Char) :
    splitCommaL (' ' :: x) = match splitCommaL x with
      | [] => [[' ']]
      | p :: ps => (' ' :: p) :: ps := by
  rw [splitCommaL_cons, if_neg (show ¬(' ' = ',') from by decide)]

theorem splitCommaL_joinCS_cons (a : List Char) (t : List (List Char))
    (h : ∀ x ∈ a :: t, ',' ∉ x) :
    splitCommaL (joinCS (a :: t)) = a :: t.map (fun b => ' ' :: b) := by
  induction t generalizing a with
  | nil => exact splitCommaL_no_comma (h a (List.mem_cons_self a []))
  | cons b t ih =>
      rw [show joinCS (a :: b :: t) = a ++ ',' :: ' ' :: joinCS (b :: t) from rfl]
      rw [splitCommaL_append _ (h a (List.mem_cons_self a (b :: t)))]
      rw [splitCommaL_space]
      rw [ih b (fun x hx => h x (List.mem_cons_of_mem a hx))]
      rfl

theorem stripL_cons_space (b : List Char) : stripL (' ' :: b) = stripL b := by
  simp only [stripL, List.dropWhile_cons, show pyIsSpace ' ' = true from by decide, if_true]

theorem tailmap_eq (t : List String) (h : ∀ s ∈ t, pyStrip s = s) :
    ((t.map String.data).map (fun b => ' ' :: b)).map (fun b => pyStrip (String.mk b)) = t := by
  induction t with
  | nil => rfl
  | cons s ts ih =>
      simp only [List.map_cons]
      have hs : pyStrip (String.mk (' ' :: s.data)) = s := by
        have h1 : pyStrip (String.mk (' ' :: s.data)) = String.mk (stripL (' ' :: s.data)) := rfl
        rw [h1, stripL_cons_space]
        exact h s (List.mem_cons_self s ts)
      rw [hs, ih (fun x hx => h x (List.mem_cons_of_mem s hx))]

/-- Reading back one serialized labels string: the chunk list of
`split(',')` + `strip()` + drop-empties is exactly the original string
list, provided each label is nonempty, comma-free and strip-invariant. -/
theorem parse_chunks (L : List String)
    (h : ∀ s ∈ L, s ≠ "" ∧ ',' ∉ s.data ∧ pyStrip s = s) :
    (((splitCommaL (joinCS (L.map String.data))).map String.mk).map pyStrip).filter
      (fun t => t ≠ "") = L := by
  cases L with
  | nil => rfl
  | cons a t =>
      rw [List.map_cons]
      rw [splitCommaL_joinCS_cons a.data (t.map String.data) ?_]
      · simp only [List.map_cons]
        rw [show pyStrip (String.mk a.data) = a from (h a (List.mem_cons_self a t)).2.2]
        rw [show (((t.map String.data).map (fun b => ' ' :: b)).map String.mk).map pyStrip = t from ?_]
        · refine List.filter_eq_self.mpr ?_
          intro s hs
          rcases List.mem_cons.mp hs with hs | hs
          · subst hs; exact decide_eq_true (h s (List.mem_cons_self s t)).1
          · exact decide_eq_true (h s (List.mem_cons_of_mem a hs)).1
        · rw [List.map_map]
          show ((t.map String.data).map (fun b => ' ' :: b)).map (fun b => pyStrip (String.mk b)) = t
          exact tailmap_eq t (fun s hs => (h s (List.mem_cons_of_mem a hs)).2.2)
      · intro x hx
        rcases List.mem_cons.mp hx with hx | hx
        · subst hx; exact (h a (List.mem_cons_self a t)).2.1
        · obtain ⟨s, hs, rfl⟩ := List.mem_map.mp hx
          exact (h s (List.mem_cons_of_mem a hs)).2.1

/-- Round-trip of the label serialization under the amended conditions. -/
theorem parseLabels_serializeLabels {l : Finset String}
    (hgood : ∀ s ∈ l, s ≠ "" ∧ ',' ∉ s.data ∧ pyStrip s = s) :
    parseLabels (serializeLabels l) = l := by
  have h1 : parseLabels (serializeLabels l) =
      ((((splitCommaL (joinCS ((pySortedStr l).map String.data))).map String.mk).map
        pyStrip).filter (fun t => t ≠ "")).toFinset := rfl
  rw [h1, parse_chunks (pySortedStr l) (fun s hs => hgood s (mem_pySortedStr.mp hs))]
  exact pySortedStr_toFinset l

/-- C2 (amended): flags round-trip unconditionally; labels round-trip
through `saveall` + `cachemessagelist` provided every label token is
nonempty, contains no comma and is `strip`-invariant (no leading or
trailing whitespace) — and then re-serializing the reconstructed sets
yields byte-identical strings.  (Arbitrary label tokens do not round-trip;
see the counterexample.) -/
theorem roundtrip_saveall_cache (uid : Int) (r : MsgRecord)
    (hgood : ∀ s ∈ r.labels, s ≠ "" ∧ ',' ∉ s.data ∧ pyStrip s = s) :
    ∃ r1, mlookup (cachemessagelist (saveall ⟨[(uid, r)], [], []⟩)).mirror uid = some r1 ∧
      r1.flags = r.flags ∧ r1.labels = r.labels ∧
      serializeFlags r1.flags = serializeFlags r.flags ∧
      serializeLabels r1.labels = serializeLabels r.labels := by
  have hm : (cachemessagelist (saveall ⟨[(uid, r)], [], []⟩)).mirror =
      [(uid, rowToRecord ⟨uid, serializeFlags r.flags, r.mtime,
        some (serializeLabels r.labels)⟩)] := rfl
  have hflags : (rowToRecord ⟨uid, serializeFlags r.flags, r.mtime,
      some (serializeLabels r.labels)⟩).flags = r.flags :=
    parseFlags_serializeFlags r.flags
  have hlabels : (rowToRecord ⟨uid, serializeFlags r.flags, r.mtime,
      some (serializeLabels r.labels)⟩).labels = r.labels :=
    parseLabels_serializeLabels hgood
  refine ⟨_, ?_, hflags, hlabels, congrArg serializeFlags hflags,
    congrArg serializeLabels hlabels⟩
  rw [hm, mlookup_cons, if_pos rfl]

theorem roundtrip_saveall_cache_witness :
    (∀ s ∈ ({"Work", "b c"} : Finset String), s ≠ "" ∧ ',' ∉ s.data ∧ pyStrip s = s) ∧
      (∃ r1, mlookup (cachemessagelist (saveall
          ⟨[(4, ⟨4, {'F', 'S'}, {"Work", "b c"}, 0, 9⟩)], [], []⟩)).mirror 4 = some r1 ∧
        r1.flags = ({'F', 'S'} : Finset Char) ∧ r1.labels = ({"Work", "b c"} : Finset String) ∧
        serializeFlags r1.flags = serializeFlags {'F', 'S'} ∧
        serializeLabels r1.labels = serializeLabels {"Work", "b c"}) :=
  ⟨by decide, roundtrip_saveall_cache 4 ⟨4, {'F', 'S'}, {"Work", "b c"}, 0, 9⟩ (by decide)⟩

/-- C2 (counterexample): the label set `{"a,b"}` serializes to `"a,b"`,
and reloading via `cachemessagelist` reconstructs `{"a", "b"}`, which is
not the original set — the round-trip fails for arbitrary label tokens. -/
theorem roundtrip_comma_label_fails :
    (mlookup (cachemessagelist (saveall
        ⟨[(1, ⟨1, ∅, {"a,b"}, 0, 0⟩)], [], []⟩)).mirror 1).map MsgRecord.labels =
      some {"a", "b"} ∧
    ({"a", "b"} : Finset String) ≠ {"a,b"} := by
  constructor
  · decide
  · decide

/-! ## Bulk label update versus iterated single updates (source:
`savemessageslabelsbulk`, `savemessagelabels`) -/

/-- Iterating `savemessagelabels` (with its default `mtime=None`) over a
list of (uid, labels) pairs: the one-call-per-UID composition that
`savemessageslabelsbulk` is compared against. -/
def iterateSaveLabels (st : FolderState) (pairs : List (Int × Finset String)) :
    Option FolderState :=
  pairs.foldlM (fun s p => savemessagelabels s p.1 p.2 none) st

theorem iterateSaveLabels_cons (st : FolderState) (p : Int × Finset String)
    (t : List (Int × Finset String)) :
    iterateSaveLabels st (p :: t) =
      (savemessagelabels st p.1 p.2 none).bind (fun s => iterateSaveLabels s t) := by
  simp [iterateSaveLabels, List.foldlM_cons]

theorem setLabelsMany_eq (pairs : List (Int × Finset String)) : ∀ (m : Mirror),
    (∀ p ∈ pairs, hasKey m p.1 = true) →
    pairs.foldlM (fun mm p => msetLabels mm p.1 p.2) m =
      some (pairs.foldl (fun mm p => mupd p.1 (fun r => { r with labels := p.2 }) mm) m) := by
  induction pairs with
  | nil => intro m _; rfl
  | cons p t ih =>
      intro m hk
      rw [List.foldlM_cons]
      rw [show msetLabels m p.1 p.2 =
        some (mupd p.1 (fun r => { r with labels := p.2 }) m) from by
          simp [msetLabels, hk p (List.mem_cons_self p t)]]
      simp only [Option.pure_def, Option.bind_eq_bind, Option.some_bind]
      rw [ih _ ?_]
      · rfl
      · intro q hq
        rw [hasKey_mupd]
        exact hk q (List.mem_cons_of_mem p hq)

theorem iterate_eq (pairs : List (Int × Finset String)) : ∀ (st : FolderState),
    (∀ p ∈ pairs, hasKey st.mirror p.1 = true) →
    iterateSaveLabels st pairs = some ⟨
      pairs.foldl (fun m p => mupd p.1 (fun r => { r with labels := p.2 }) m) st.mirror,
      pairs.foldl (fun s p =>
        rupd p.1 (fun r => { r with labels := some (serializeLabels p.2) }) s) st.store,
      st.log ++ pairs.map (fun p => [SqlStmt.updateLabels (serializeLabels p.2) p.1])⟩ := by
  induction pairs with
  | nil =>
      intro st _
      simp [iterateSaveLabels]
  | cons p t ih =>
      intro st hk
      have hkp : hasKey st.mirror p.1 = true := hk p (List.mem_cons_self p t)
      have hstep : savemessagelabels st p.1 p.2 none =
          some (sqlWrite { st with mirror := mupd p.1 (fun r => { r with labels := p.2 }) st.mirror } [.updateLabels (serializeLabels p.2) p.1]) := by
        simp [savemessagelabels, msetLabels, hkp, pyTruthy]
      have hk2 : ∀ q ∈ t, hasKey (sqlWrite { st with mirror := mupd p.1 (fun r => { r with labels := p.2 }) st.mirror } [.updateLabels (serializeLabels p.2) p.1]).mirror q.1 = true := by
        intro q hq
        show hasKey (mupd p.1 (fun r => { r with labels := p.2 }) st.mirror) q.1 = true
        rw [hasKey_mupd]
        exact hk q (List.mem_cons_of_mem p hq)
      rw [iterateSaveLabels_cons, hstep, Option.some_bind, ih _ hk2]
      rw [show (sqlWrite { st with mirror := mupd p.1 (fun r => { r with labels := p.2 }) st.mirror } [.updateLabels (serializeLabels p.2) p.1]).log = st.log ++ [[SqlStmt.updateLabels (serializeLabels p.2) p.1]] from rfl]
      rw [List.append_assoc]
      rfl

theorem bulk_eq (st : FolderState) (pairs : List (Int × Finset String))
    (hkeys : ∀ p ∈ pairs, hasKey st.mirror p.1 = true) :
    savemessageslabelsbulk st pairs = some ⟨
      pairs.foldl (fun m p => mupd p.1 (fun r => { r with labels := p.2 }) m) st.mirror,
      pairs.foldl (fun s p =>
        rupd p.1 (fun r => { r with labels := some (serializeLabels p.2) }) s) st.store,
      st.log ++ [pairs.map (fun p => SqlStmt.updateLabels (serializeLabels p.2) p.1)]⟩ := by
  simp only [savemessageslabelsbulk]
  rw [show (sqlWrite st (pairs.map (fun p => SqlStmt.updateLabels (serializeLabels p.2) p.1))).mirror = st.mirror from rfl]
  rw [setLabelsMany_eq pairs st.mirror hkeys]
  rw [Option.map_some']
  rw [show (sqlWrite st (pairs.map (fun p => SqlStmt.updateLabels (serializeLabels p.2) p.1))).store = (pairs.map (fun p => SqlStmt.updateLabels (serializeLabels p.2) p.1)).foldl applyStmt st.store from rfl]
  rw [List.foldl_map]
  rfl

/-- C6 (confirmed): for a duplicate-free map of labels whose UIDs all
exist in the mirror, the bulk update produces the same final mirror and
store as iterating `savemessagelabels` over the entries in any order (the
write logs differ — one batched call versus one call per UID — but mirror
and store agree). -/
theorem bulk_labels_eq_iterated (st : FolderState)
    (pairs pairs2 : List (Int × Finset String))
    (hperm : pairs2.Perm pairs) (hnd : (pairs.map Prod.fst).Nodup)
    (hkeys : ∀ p ∈ pairs, hasKey st.mirror p.1 = true) :
    ∃ stB stI, savemessageslabelsbulk st pairs = some stB ∧
      iterateSaveLabels st pairs2 = some stI ∧
      stB.mirror = stI.mirror ∧ stB.store = stI.store := by
  have hkeys2 : ∀ p ∈ pairs2, hasKey st.mirror p.1 = true :=
    fun p hp => hkeys p (hperm.subset hp)
  refine ⟨_, _, bulk_eq st pairs hkeys, iterate_eq pairs2 st hkeys2, ?_, ?_⟩
  · exact foldl_perm_keyed
      (fun p mm => mupd p.1 (fun r => { r with labels := p.2 }) mm) Prod.fst
      (fun p q hpq mm => mupd_comm _ _ _ hpq)
      hperm.symm hnd st.mirror
  · exact foldl_perm_keyed
      (fun p s => rupd p.1 (fun r => { r with labels := some (serializeLabels p.2) }) s)
      Prod.fst
      (fun p q hpq s => rupd_comm
        (fun r => { r with labels := some (serializeLabels p.2) })
        (fun r => { r with labels := some (serializeLabels q.2) })
        s hpq (fun r => rfl) (fun r => rfl))
      hperm.symm hnd st.store

theorem bulk_labels_eq_iterated_witness :
    ([((2 : Int), (∅ : Finset String)), (1, {"a"})].Perm
        [((1 : Int), ({"a"} : Finset String)), (2, ∅)]) ∧
      (([((1 : Int), ({"a"} : Finset String)), (2, ∅)].map Prod.fst).Nodup) ∧
      (∀ p ∈ [((1 : Int), ({"a"} : Finset String)), (2, ∅)],
        hasKey [(1, (⟨1, ∅, ∅, 0, 0⟩ : MsgRecord)), (2, ⟨2, ∅, ∅, 0, 0⟩)] p.1 = true) ∧
      (∃ stB stI, savemessageslabelsbulk
          ⟨[(1, ⟨1, ∅, ∅, 0, 0⟩), (2, ⟨2, ∅, ∅, 0, 0⟩)], [], []⟩ [(1, {"a"}), (2, ∅)] = some stB ∧
        iterateSaveLabels
          ⟨[(1, ⟨1, ∅, ∅, 0, 0⟩), (2, ⟨2, ∅, ∅, 0, 0⟩)], [], []⟩ [(2, ∅), (1, {"a"})] = some stI ∧
        stB.mirror = stI.mirror ∧ stB.store = stI.store) :=
  ⟨by decide, by decide, by decide,
    bulk_labels_eq_iterated ⟨[(1, ⟨1, ∅, ∅, 0, 0⟩), (2, ⟨2, ∅, ∅, 0, 0⟩)], [], []⟩
      [(1, {"a"}), (2, ∅)] [(2, ∅), (1, {"a"})] (by decide) (by decide) (by decide)⟩
